import Mathlib

/-!
Verification development for the action-extraction engine and HTTP boundary of
`src/azure-functions/transcribe-audio/function_app.py`.

Strings are modelled as `List Char` (`Str`).  Python string operations
(`lower`, `strip`, `replace`, `split`, `in`, slicing) are embedded as
executable functions with Python semantics; the ASCII fragment is modelled
exactly (the repository's patterns and keyword lists are pure ASCII).  The
four regular-expression searches of `extract_actions` are embedded as bespoke
recursive matchers that reproduce Python `re.search` semantics (leftmost
start position, alternation order, greedy/lazy quantifier backtracking) for
exactly the four patterns appearing in the source.
-/

/-- Strings of the model: Python `str` as a list of characters. -/
abbrev Str := List Char

/-- Python whitespace for `str.strip` and the regex class `\s` (ASCII part):
space, tab, newline, carriage return, vertical tab, form feed. -/
def isPySpace (c : Char) : Bool :=
  c = ' ' || c = '\t' || c = '\n' || c = '\r' || c = '\x0b' || c = '\x0c'

/-- ASCII uppercase letter, the regex class `[A-Z]`. -/
def isAsciiUpper (c : Char) : Bool := 'A' ≤ c && c ≤ 'Z'

/-- ASCII lowercase letter, the regex class `[a-z]`. -/
def isAsciiLower (c : Char) : Bool := 'a' ≤ c && c ≤ 'z'

/-- ASCII letter, the regex class `[a-zA-Z]`. -/
def isAsciiAlpha (c : Char) : Bool := isAsciiUpper c || isAsciiLower c

/-- ASCII digit, the regex class `[0-9]`. -/
def isAsciiDigit (c : Char) : Bool := '0' ≤ c && c ≤ '9'

/-- Lowercase one character (ASCII), as Python `str.lower` does per char. -/
def asciiLower (c : Char) : Char :=
  if isAsciiUpper c then Char.ofNat (c.toNat + 32) else c

/-- Python `s.lower()`. -/
def pyLower (s : Str) : Str := s.map asciiLower

/-- Python `s.strip()`: drop leading and trailing whitespace. -/
def pyStrip (s : Str) : Str :=
  ((s.dropWhile isPySpace).reverse.dropWhile isPySpace).reverse

/-- Python `needle in haystack` for strings: contiguous substring test. -/
def isSubstr (needle : Str) : Str → Bool
  | [] => needle.isEmpty
  | c :: t => needle.isPrefixOf (c :: t) || isSubstr needle t

/-- Python `s.replace(a, b)` for single characters `a`, `b`. -/
def pyReplace (a b : Char) (s : Str) : Str :=
  s.map (fun c => if c = a then b else c)

/-- Python `s.split(sep)` for a single-character separator: keeps empty
fields, and the empty string splits to `[""]`. -/
def pySplit (sep : Char) : Str → List Str
  | [] => [[]]
  | c :: cs =>
    if c = sep then [] :: pySplit sep cs
    else
      match pySplit sep cs with
      | [] => [[c]]
      | g :: gs => (c :: g) :: gs

/-- `re.search` position scan: try the pattern matcher `f` at every start
position from the left, first success wins (the empty suffix included). -/
def scan1 (f : Str → Option Str) : Str → Option Str
  | [] => f []
  | c :: t =>
    match f (c :: t) with
    | some m => some m
    | none => scan1 f t

/-! ### The Email pattern `([a-zA-Z0-9._%+-]+@[a-zA-Z0-9.-]+\.[a-zA-Z]{2,})` -/

/-- Character class `[a-zA-Z0-9._%+-]` (the local part of an address). -/
def isEmailLocalChar (c : Char) : Bool :=
  isAsciiAlpha c || isAsciiDigit c || c = '.' || c = '_' || c = '%' || c = '+' || c = '-'

/-- Character class `[a-zA-Z0-9.-]` (the domain of an address). -/
def isEmailDomainChar (c : Char) : Bool :=
  isAsciiAlpha c || isAsciiDigit c || c = '.' || c = '-'

/-- Backtracking of `[a-zA-Z0-9.-]+\.[a-zA-Z]{2,}` over the maximal domain
run `D`: the greedy `+` gives characters back from the right, so the match
uses the rightmost `.` in `D` followed by at least two letters.  Returns the
domain part before that dot and the greedy alphabetic run after it. -/
def emailDomTld : Str → Option (Str × Str)
  | [] => none
  | c :: rest =>
    match emailDomTld rest with
    | some (dp, tld) => some (c :: dp, tld)
    | none =>
      if c = '.' then
        let t := rest.takeWhile isAsciiAlpha
        if 2 ≤ t.length then some ([], t) else none
      else none

/-- Match the email pattern anchored at the start of `s`; returns the matched
address (group 1 is the whole match).  `[locals]+` is greedy and `@` is not
in the class, so the local part is exactly the maximal run. -/
def emailAt (s : Str) : Option Str :=
  match s.dropWhile isEmailLocalChar with
  | '@' :: rest2 =>
    if s.takeWhile isEmailLocalChar = [] then none
    else
      match emailDomTld (rest2.takeWhile isEmailDomainChar) with
      | some (dp, tld) => some (s.takeWhile isEmailLocalChar ++ '@' :: (dp ++ '.' :: tld))
      | none => none
  | _ => none

/-- `re.search(r'([a-zA-Z0-9._%+-]+@[a-zA-Z0-9.-]+\.[a-zA-Z]{2,})', s)`. -/
def searchEmail (s : Str) : Option Str := scan1 emailAt s

/-! ### The name pattern `[A-Z][a-z]+(?:\s+[A-Z][a-z]+)?` -/

/-- Match `[A-Z][a-z]+` at the start: one capitalized word, greedy lowercase
run; returns the word and the rest. -/
def wordAt : Str → Option (Str × Str)
  | [] => none
  | c :: rest =>
    if isAsciiUpper c then
      let low := rest.takeWhile isAsciiLower
      if low = [] then none
      else some (c :: low, rest.dropWhile isAsciiLower)
    else none

/-- Match `[A-Z][a-z]+(?:\s+[A-Z][a-z]+)?` at the start of `s`: one or two
capitalized words; the optional group is greedy and its classes are disjoint
from `[a-z]`, so no backtracking arises.  The captured text includes the
whitespace between the two words, as Python's group does. -/
def nameAt (s : Str) : Option Str :=
  match wordAt s with
  | none => none
  | some (w1, r1) =>
    let ws := r1.takeWhile isPySpace
    if ws = [] then some w1
    else
      match wordAt (r1.dropWhile isPySpace) with
      | some (w2, _) => some (w1 ++ ws ++ w2)
      | none => some w1

/-! ### The Call pattern `(?:call|phone|ring)\s+([A-Z][a-z]+(?:\s+[A-Z][a-z]+)?)` -/

/-- Try one literal keyword followed by `\s+` and the name pattern, anchored
at the start of `s` (case-sensitive, as in the source's Call regex). -/
def kwNameAt (kw : Str) (s : Str) : Option Str :=
  if kw.isPrefixOf s then
    let r := s.drop kw.length
    let ws := r.takeWhile isPySpace
    if ws = [] then none else nameAt (r.dropWhile isPySpace)
  else none

/-- Match the Call pattern at the start of `s`: alternatives in source
order `call`, `phone`, `ring` (their first letters differ, so at most one
can apply at a position). -/
def callAt (s : Str) : Option Str :=
  match kwNameAt "call".data s with
  | some n => some n
  | none =>
    match kwNameAt "phone".data s with
    | some n => some n
    | none => kwNameAt "ring".data s

/-- `re.search(r'(?:call|phone|ring)\s+([A-Z][a-z]+(?:\s+[A-Z][a-z]+)?)', s)`,
returning group 1 (the name). -/
def searchCall (s : Str) : Option Str := scan1 callAt s

/-! ### The Meeting pattern
`(?:meet(?:ing)?|schedule)\s+(?:with\s+)?([A-Z][a-z]+(?:\s+[A-Z][a-z]+)?)` -/

/-- Match `\s+(?:with\s+)?NAME` at `r`: mandatory whitespace, then the
greedy optional `with\s+` (backtracked away if the name then fails), then
the name pattern. -/
def meetBodyAt (r : Str) : Option Str :=
  let ws := r.takeWhile isPySpace
  if ws = [] then none
  else
    let r2 := r.dropWhile isPySpace
    let withBranch : Option Str :=
      if ("with".data).isPrefixOf r2 then
        let r3 := r2.drop 4
        let ws2 := r3.takeWhile isPySpace
        if ws2 = [] then none else nameAt (r3.dropWhile isPySpace)
      else none
    match withBranch with
    | some n => some n
    | none => nameAt r2

/-- Match the Meeting pattern at the start of `s`: alternative `meet(?:ing)?`
first (greedy `ing`, backtracked away if the body then fails), then
`schedule`. -/
def meetingAt (s : Str) : Option Str :=
  let afterMeet : Option Str :=
    if ("meet".data).isPrefixOf s then
      let r := s.drop 4
      let withIng : Option Str :=
        if ("ing".data).isPrefixOf r then meetBodyAt (r.drop 3) else none
      match withIng with
      | some n => some n
      | none => meetBodyAt r
    else none
  match afterMeet with
  | some n => some n
  | none =>
    if ("schedule".data).isPrefixOf s then meetBodyAt (s.drop 8) else none

/-- `re.search` for the Meeting pattern, returning group 1 (the name). -/
def searchMeeting (s : Str) : Option Str := scan1 meetingAt s

/-! ### The Task pattern `(?:need to|should|must|have to)\s+(.{10,60}?)(?:\.|$)`
with `re.IGNORECASE` -/

/-- The terminator `(?:\.|$)` at the current position: a literal dot, end of
input, or (Python `$` without `MULTILINE`) immediately before a final
newline. -/
def dotOrEnd : Str → Bool
  | [] => true
  | c :: rest => c = '.' || (c = '\n' && rest.isEmpty)

/-- Lazy counted group `(.{10,60}?)` then the terminator: try group lengths
`n, n+1, ...` (at most `fuel` attempts); `.` does not match a newline. -/
def taskGroupGo (r : Str) : Nat → Nat → Option Str
  | _, 0 => none
  | n, fuel + 1 =>
    if (r.take n).length = n ∧ (r.take n).all (fun c => c != '\n') = true ∧
        dotOrEnd (r.drop n) = true then
      some (r.take n)
    else taskGroupGo r (n + 1) fuel

/-- `(.{10,60}?)(?:\.|$)` at `r`: lazy, so lengths 10 through 60 in order. -/
def taskGroup (r : Str) : Option Str := taskGroupGo r 10 51

/-- Greedy `\s+` before the group: try the maximal whitespace run first and
give back one character at a time (the group's `.` also matches spaces, so
this backtracking is observable). -/
def taskWsGo (r : Str) : Nat → Option Str
  | 0 => none
  | k + 1 =>
    match taskGroup (r.drop (k + 1)) with
    | some g => some g
    | none => taskWsGo r k

/-- Match `\s+(.{10,60}?)(?:\.|$)` at `r`. -/
def taskBodyAt (r : Str) : Option Str :=
  taskWsGo r (r.takeWhile isPySpace).length

/-- Case-insensitive literal prefix test, for `re.IGNORECASE` with an
ASCII-lowercase keyword. -/
def ciPrefixOf (kw s : Str) : Bool := kw.isPrefixOf (pyLower s)

/-- One trigger alternative of the Task pattern, anchored at `s`. -/
def taskKw (kw s : Str) : Option Str :=
  if ciPrefixOf kw s then taskBodyAt (s.drop kw.length) else none

/-- Match the Task pattern at the start of `s`: trigger alternatives in
source order `need to`, `should`, `must`, `have to` (disjoint first
letters). -/
def taskAt (s : Str) : Option Str :=
  match taskKw "need to".data s with
  | some g => some g
  | none =>
    match taskKw "should".data s with
    | some g => some g
    | none =>
      match taskKw "must".data s with
      | some g => some g
      | none => taskKw "have to".data s

/-- `re.search` for the Task pattern, returning group 1 (the task text). -/
def searchTask (s : Str) : Option Str := scan1 taskAt s

/-! ### Actions and the per-sentence rule cascade of `extract_actions` -/

/-- The action dictionaries built by `extract_actions`. -/
structure PyAction where
  action_type : Str
  title : Str
  description : Str
  metadata : List (Str × Str)
deriving DecidableEq

/-- `{'action_type': 'email', 'title': f'Email {m}', ...}` (line 192). -/
def emailAction (e s : Str) : PyAction :=
  ⟨"email".data, "Email ".data ++ e, s, [("recipient".data, e)]⟩

/-- `{'action_type': 'call', 'title': f'Call {name}', ...}` (line 208). -/
def callAction (n s : Str) : PyAction :=
  ⟨"call".data, "Call ".data ++ n, s, [("contact".data, n)]⟩

/-- `{'action_type': 'meeting', 'title': f'Meeting with {name}', ...}` (line 223). -/
def meetingAction (n s : Str) : PyAction :=
  ⟨"meeting".data, "Meeting with ".data ++ n, s, [("contact".data, n)]⟩

/-- `{'action_type': 'task', 'title': task[:50], ...}` (line 237), where
`task = task_match.group(1).strip()`. -/
def taskAction (g s : Str) : PyAction :=
  ⟨"task".data, (pyStrip g).take 50, s, []⟩

/-- Keyword gate of the Email rule: `'email' in lower or 'send' in lower`. -/
def emailGate (l : Str) : Bool := isSubstr "email".data l || isSubstr "send".data l

/-- Keyword gate of the Call rule. -/
def callGate (l : Str) : Bool :=
  isSubstr "call".data l || isSubstr "phone".data l || isSubstr "ring".data l

/-- Keyword gate of the Meeting rule. -/
def meetingGate (l : Str) : Bool :=
  isSubstr "meeting".data l || isSubstr "meet with".data l || isSubstr "schedule".data l

/-- Keyword gate of the Task rule. -/
def taskGate (l : Str) : Bool :=
  isSubstr "need to".data l || isSubstr "should".data l ||
    isSubstr "must".data l || isSubstr "have to".data l

/-- The stoplist of the Call rule: `['the', 'a', 'my', 'our', 'them', 'back']`. -/
def callStop : List Str :=
  ["the".data, "a".data, "my".data, "our".data, "them".data, "back".data]

/-- The stoplist of the Meeting rule: `['the', 'a', 'my', 'our']`. -/
def meetStop : List Str := ["the".data, "a".data, "my".data, "our".data]

/-- Task rule (lines 232-242): last block of the per-sentence cascade, no
`continue` needed after it. -/
def tryTask (s l : Str) : List PyAction :=
  if taskGate l then
    match searchTask s with
    | some g => [taskAction g s]
    | none => []
  else []

/-- Meeting rule (lines 217-229): on a stoplisted name control falls through
to the Task block (there is no `continue` on that path). -/
def tryMeeting (s l : Str) : List PyAction :=
  if meetingGate l then
    match searchMeeting s with
    | some n => if pyLower n ∈ meetStop then tryTask s l else [meetingAction n s]
    | none => tryTask s l
  else tryTask s l

/-- Call rule (lines 201-214): on a stoplisted name control falls through to
the Meeting block. -/
def tryCall (s l : Str) : List PyAction :=
  if callGate l then
    match searchCall s with
    | some n => if pyLower n ∈ callStop then tryMeeting s l else [callAction n s]
    | none => tryMeeting s l
  else tryMeeting s l

/-- Email rule (lines 188-198): a regex match appends and `continue`s, a
failed match falls through to the Call block. -/
def tryEmail (s l : Str) : List PyAction :=
  if emailGate l then
    match searchEmail s with
    | some e => [emailAction e s]
    | none => tryCall s l
  else tryCall s l

/-- All actions one loop iteration appends for the (already stripped,
non-empty) sentence `s`; `lower = sentence.lower()` is computed once. -/
def sentenceActions (s : Str) : List PyAction := tryEmail s (pyLower s)

/-- The `for sentence in sentences` loop body applied in order (line 180):
strip, skip empties, run the cascade, concatenate the appended actions. -/
def collectActions (f : Str → List PyAction) : List Str → List PyAction
  | [] => []
  | x :: xs => f x ++ collectActions f xs

/-- The dedup loop (lines 245-251): `seen` is the set of lowercased titles
already kept, in order over the candidate list. -/
def dedupGo : List Str → List PyAction → List PyAction
  | _, [] => []
  | seen, a :: rest =>
    if pyLower a.title ∈ seen then dedupGo seen rest
    else a :: dedupGo (pyLower a.title :: seen) rest

/-- `Deduplicate by title` (lines 244-252). -/
def dedupActions (l : List PyAction) : List PyAction := dedupGo [] l

/-- `extract_actions` (lines 171-253): early return on the falsy (empty)
string, normalize `!` and `?` to `.`, split on `.`, run the per-sentence
cascade, deduplicate by lowercased title. -/
def extract_actions (t : Str) : List PyAction :=
  if t = [] then []
  else
    dedupActions (collectActions
      (fun raw =>
        let s := pyStrip raw
        if s = [] then [] else sentenceActions s)
      (pySplit '.' (pyReplace '?' '.' (pyReplace '!' '.' t))))

/-! ### The four rules as single pure matchers, for stating rule priority -/

/-- The Email rule as one pure function `Sentence -> ActionCandidate?`:
keyword gate on the lowercased sentence, regex extraction on the original. -/
def ruleEmail (s l : Str) : Option PyAction :=
  if emailGate l then (searchEmail s).map (fun e => emailAction e s) else none

/-- The Call rule as one pure function: gate, regex extraction, stoplist. -/
def ruleCall (s l : Str) : Option PyAction :=
  if callGate l then
    match searchCall s with
    | some n => if pyLower n ∈ callStop then none else some (callAction n s)
    | none => none
  else none

/-- The Meeting rule as one pure function: gate, regex extraction, stoplist. -/
def ruleMeeting (s l : Str) : Option PyAction :=
  if meetingGate l then
    match searchMeeting s with
    | some n => if pyLower n ∈ meetStop then none else some (meetingAction n s)
    | none => none
  else none

/-- The Task rule as one pure function: gate and regex extraction. -/
def ruleTask (s l : Str) : Option PyAction :=
  if taskGate l then (searchTask s).map (fun g => taskAction g s) else none

/-- First successful rule in the fixed order Email, Call, Meeting, Task. -/
def ruleFirst (s : Str) : Option PyAction :=
  match ruleEmail s (pyLower s) with
  | some a => some a
  | none =>
    match ruleCall s (pyLower s) with
    | some a => some a
    | none =>
      match ruleMeeting s (pyLower s) with
      | some a => some a
      | none => ruleTask s (pyLower s)

/-- Modelled from the spec (section 4.3): the deduplication contract, `the
unique sub-sequence preserving first occurrence order, where uniqueness key
= title lowercased`: keep the head, drop every later candidate whose
lowercased title equals the head's, recurse. -/
def dedupFirstOccur : List PyAction → List PyAction
  | [] => []
  | a :: rest =>
    a :: dedupFirstOccur (rest.filter fun b => pyLower b.title != pyLower a.title)
termination_by l => l.length
decreasing_by
  simp only [List.length_cons]
  exact Nat.lt_succ_of_le (List.length_filter_le _ _)

/-! ### The HTTP boundary `transcribe_audio` (lines 20-103)

Shallow model of the handler.  `jsonBody` is the outcome of
`req.get_json()`: `none` models a body that is not valid JSON (the call
raises `ValueError`, which only the outer `except` catches), `some (rid,
url)` the parsed body with its two looked-up fields (`none` for an absent
key).  `parseErr` is the text of that exception.  `process` abstracts lines
46-82 (audio download, temp file, speech transcription, database writes):
`Except.error e` models any exception raised there with text `e`, and
`Except.ok transcript` the successful transcript. -/

/-- Response body: `{"error": msg}` or
`{"success": true, "recording_id": ..., "transcript": ...}`. -/
inductive RespBody where
  | err (msg : Str)
  | success (recording_id transcript : Str)
deriving DecidableEq

/-- An HTTP response: status code and JSON body. -/
structure HttpResp where
  status : Nat
  body : RespBody
deriving DecidableEq

/-- Python truthiness of an optional string: `None` and `""` are falsy. -/
def pyFalsy : Option Str → Bool
  | none => true
  | some s => s.isEmpty

/-- The `transcribe_audio` HTTP handler: invalid JSON raises and is caught
by the outer `except` (500); a parsed body with a missing or empty
`recording_id` or `audio_url` returns 400; otherwise the processing result
decides between 200 and the outer `except` (500). -/
def transcribe_audio (process : Str → Str → Except Str Str) (parseErr : Str)
    (jsonBody : Option (Option Str × Option Str)) : HttpResp :=
  match jsonBody with
  | none => ⟨500, .err parseErr⟩
  | some (rid, url) =>
    if pyFalsy rid || pyFalsy url then
      ⟨400, .err "Missing recording_id or audio_url".data⟩
    else
      match process (rid.getD []) (url.getD []) with
      | .ok transcript => ⟨200, .success (rid.getD []) transcript⟩
      | .error e => ⟨500, .err e⟩

/-! ### Helper lemmas: splitting and stripping -/

/-- Python `split` never returns an empty list of fields. -/
theorem pySplit_ne_nil (sep : Char) (l : Str) : pySplit sep l ≠ [] := by
  induction l with
  | nil => simp [pySplit]
  | cons c cs ih =>
    simp only [pySplit]
    split
    · simp
    · split
      · simp
      · simp

/-- No field produced by Python `split` contains the separator. -/
theorem not_mem_pySplit (sep : Char) (l : Str) :
    ∀ x ∈ pySplit sep l, sep ∉ x := by
  induction l with
  | nil =>
    intro x hx
    simp [pySplit] at hx
    simp [hx]
  | cons c cs ih =>
    intro x hx
    simp only [pySplit] at hx
    by_cases hc : c = sep
    · rw [if_pos hc] at hx
      rcases List.mem_cons.mp hx with h | h
      · simp [h]
      · exact ih x h
    · rw [if_neg hc] at hx
      cases h : pySplit sep cs with
      | nil => exact absurd h (pySplit_ne_nil sep cs)
      | cons g gs =>
        rw [h] at hx
        rcases List.mem_cons.mp hx with h2 | h2
        · subst h2
          intro hmem
          rcases List.mem_cons.mp hmem with h3 | h3
          · exact hc h3.symm
          · exact ih g (by rw [h]; exact List.mem_cons_self g gs) h3
        · exact ih x (by rw [h]; exact List.mem_cons_of_mem g h2)

/-- Every character of a field produced by Python `split` is a character of
the input. -/
theorem subset_of_mem_pySplit (sep : Char) (l : Str) :
    ∀ x ∈ pySplit sep l, ∀ c ∈ x, c ∈ l := by
  induction l with
  | nil =>
    intro x hx c hc
    simp [pySplit] at hx
    subst hx
    simp at hc
  | cons a cs ih =>
    intro x hx c hc
    simp only [pySplit] at hx
    by_cases ha : a = sep
    · rw [if_pos ha] at hx
      rcases List.mem_cons.mp hx with h | h
      · subst h; simp at hc
      · exact List.mem_cons_of_mem a (ih x h c hc)
    · rw [if_neg ha] at hx
      cases h : pySplit sep cs with
      | nil => exact absurd h (pySplit_ne_nil sep cs)
      | cons g gs =>
        rw [h] at hx
        rcases List.mem_cons.mp hx with h2 | h2
        · subst h2
          rcases List.mem_cons.mp hc with h3 | h3
          · simp [h3]
          · exact List.mem_cons_of_mem a
              (ih g (by rw [h]; exact List.mem_cons_self g gs) c h3)
        · exact List.mem_cons_of_mem a
            (ih x (by rw [h]; exact List.mem_cons_of_mem g h2) c hc)

/-- `strip` only removes characters. -/
theorem mem_of_mem_pyStrip {c : Char} {s : Str} (h : c ∈ pyStrip s) : c ∈ s := by
  unfold pyStrip at h
  rw [List.mem_reverse] at h
  have h1 := (List.dropWhile_sublist (l := (s.dropWhile isPySpace).reverse) isPySpace).subset h
  rw [List.mem_reverse] at h1
  exact (List.dropWhile_sublist isPySpace).subset h1

/-- An all-whitespace string strips to the empty string. -/
theorem pyStrip_eq_nil_of_all_space {s : Str} (h : ∀ c ∈ s, isPySpace c = true) :
    pyStrip s = [] := by
  unfold pyStrip
  have h1 : s.dropWhile isPySpace = [] := List.dropWhile_eq_nil_iff.mpr h
  simp [h1]

/-- If a string strips to the empty string, it is all whitespace. -/
theorem all_space_of_pyStrip_eq_nil {g : Str} (h : pyStrip g = []) :
    ∀ c ∈ g, isPySpace c = true := by
  unfold pyStrip at h
  rw [List.reverse_eq_nil_iff] at h
  have h2 : ∀ x ∈ (g.dropWhile isPySpace).reverse, isPySpace x = true :=
    List.dropWhile_eq_nil_iff.mp h
  intro c hc
  have hg := List.takeWhile_append_dropWhile isPySpace g
  rw [← hg] at hc
  rcases List.mem_append.mp hc with h3 | h3
  · exact List.mem_takeWhile_imp h3
  · exact h2 c (List.mem_reverse.mpr h3)

/-- A non-empty stripped string ends in a non-whitespace character. -/
theorem pyStrip_last_not_space {s : Str} (h : pyStrip s ≠ []) :
    ∃ c w, (pyStrip s).reverse = c :: w ∧ isPySpace c = false := by
  have hne : (s.dropWhile isPySpace).reverse.dropWhile isPySpace ≠ [] := by
    intro h0
    apply h
    unfold pyStrip
    rw [h0]
    rfl
  refine ⟨((s.dropWhile isPySpace).reverse.dropWhile isPySpace).head hne,
    ((s.dropWhile isPySpace).reverse.dropWhile isPySpace).tail, ?_, ?_⟩
  · unfold pyStrip
    rw [List.reverse_reverse]
    exact (List.head_cons_tail _ hne).symm
  · exact List.head_dropWhile_not isPySpace _ hne

/-! ### Helper lemmas: the position scan and the loops -/

/-- A successful `re.search` scan is a successful anchored match at some
start position. -/
theorem scan1_some {f : Str → Option Str} :
    ∀ {s m : Str}, scan1 f s = some m → ∃ d, f (s.drop d) = some m := by
  intro s
  induction s with
  | nil => exact fun h => ⟨0, h⟩
  | cons c t ih =>
    intro m h
    simp only [scan1] at h
    cases hf : f (c :: t) with
    | some m2 =>
      rw [hf] at h
      simp at h
      exact ⟨0, by rw [List.drop_zero, hf, h]⟩
    | none =>
      rw [hf] at h
      obtain ⟨d, hd⟩ := ih h
      exact ⟨d + 1, by rw [List.drop_succ_cons]; exact hd⟩

/-- Deduplication only removes candidates. -/
theorem mem_of_mem_dedupGo : ∀ {seen : List Str} {l : List PyAction} {a : PyAction},
    a ∈ dedupGo seen l → a ∈ l := by
  intro seen l
  induction l generalizing seen with
  | nil => intro a h; simp [dedupGo] at h
  | cons b rest ih =>
    intro a h
    simp only [dedupGo] at h
    split at h
    · exact List.mem_cons_of_mem b (ih h)
    · rcases List.mem_cons.mp h with h1 | h1
      · simp [h1]
      · exact List.mem_cons_of_mem b (ih h1)

/-- An action collected by the sentence loop comes from some sentence. -/
theorem mem_collectActions {f : Str → List PyAction} :
    ∀ {l : List Str} {a : PyAction}, a ∈ collectActions f l → ∃ x ∈ l, a ∈ f x := by
  intro l
  induction l with
  | nil => intro a h; simp [collectActions] at h
  | cons x xs ih =>
    intro a h
    simp only [collectActions] at h
    rcases List.mem_append.mp h with h1 | h1
    · exact ⟨x, List.mem_cons_self _ _, h1⟩
    · obtain ⟨y, hy, hay⟩ := ih h1
      exact ⟨y, List.mem_cons_of_mem x hy, hay⟩

/-- If every sentence contributes nothing, the loop collects nothing. -/
theorem collectActions_eq_nil {f : Str → List PyAction} :
    ∀ {l : List Str}, (∀ x ∈ l, f x = []) → collectActions f l = [] := by
  intro l
  induction l with
  | nil => intro _; rfl
  | cons x xs ih =>
    intro h
    simp only [collectActions]
    rw [h x (List.mem_cons_self _ _), ih (fun y hy => h y (List.mem_cons_of_mem x hy))]
    rfl

/-! ### Helper lemmas: the Email matcher needs a literal dot -/

/-- The domain backtracking only succeeds when a dot is present. -/
theorem emailDomTld_dot : ∀ {D : Str} {r : Str × Str}, emailDomTld D = some r → '.' ∈ D := by
  intro D
  induction D with
  | nil => intro r h; simp [emailDomTld] at h
  | cons c rest ih =>
    intro r h
    simp only [emailDomTld] at h
    cases hr : emailDomTld rest with
    | some p => exact List.mem_cons_of_mem c (ih hr)
    | none =>
      rw [hr] at h
      by_cases hc : c = '.'
      · subst hc; exact List.mem_cons_self _ _
      · rw [if_neg hc] at h; cases h

/-- An anchored email match implies a dot in the input. -/
theorem emailAt_dot {s m : Str} (h : emailAt s = some m) : '.' ∈ s := by
  unfold emailAt at h
  split at h
  next rest2 heq =>
    split at h
    · cases h
    · split at h
      next dp tld hdt =>
        have hdot : '.' ∈ rest2.takeWhile isEmailDomainChar := emailDomTld_dot hdt
        have h1 : '.' ∈ rest2 := (List.takeWhile_sublist _).subset hdot
        have h2 : '.' ∈ s.dropWhile isEmailLocalChar := by
          rw [heq]; exact List.mem_cons_of_mem _ h1
        exact (List.dropWhile_sublist _).subset h2
      next => cases h
  next => cases h

/-- Sentences without a dot can never match the email pattern: the domain
requires a literal `.` before the top-level label. -/
theorem searchEmail_eq_none {s : Str} (h : '.' ∉ s) : searchEmail s = none := by
  cases he : searchEmail s with
  | none => rfl
  | some m =>
    obtain ⟨d, hd⟩ := scan1_some he
    exact absurd (List.drop_subset d s (emailAt_dot hd)) h

/-! ### Helper lemmas: decomposing a successful Task match -/

/-- A successful lazy-group match is a non-empty take of the input followed
by the terminator. -/
theorem taskGroupGo_some : ∀ {r : Str} {n fuel : Nat} {g : Str},
    taskGroupGo r n fuel = some g → 1 ≤ n →
    ∃ k, 1 ≤ k ∧ g = r.take k ∧ g.length = k ∧ dotOrEnd (r.drop k) = true := by
  intro r n fuel
  induction fuel generalizing n with
  | zero => intro g h _; simp [taskGroupGo] at h
  | succ fuel ih =>
    intro g h hn
    simp only [taskGroupGo] at h
    split at h
    next hcond =>
      obtain ⟨hlen, _, hterm⟩ := hcond
      have hg : g = r.take n := by
        have := h
        simp at this
        exact this.symm
      exact ⟨n, hn, hg, by rw [hg]; exact hlen, hterm⟩
    next => exact ih h (Nat.le_succ_of_le hn)

/-- A successful whitespace-backtracking match is a successful group match
at some positive offset. -/
theorem taskWsGo_some : ∀ {r : Str} {k : Nat} {g : Str},
    taskWsGo r k = some g → ∃ j, taskGroup (r.drop j) = some g := by
  intro r k
  induction k with
  | zero => intro g h; simp [taskWsGo] at h
  | succ k ih =>
    intro g h
    simp only [taskWsGo] at h
    cases ht : taskGroup (r.drop (k + 1)) with
    | some g2 =>
      rw [ht] at h
      simp at h
      exact ⟨k + 1, by rw [ht, h]⟩
    | none =>
      rw [ht] at h
      exact ih h

/-- A successful trigger alternative is a successful body match after the
keyword. -/
theorem taskKw_some {kw s g : Str} (h : taskKw kw s = some g) :
    taskBodyAt (s.drop kw.length) = some g := by
  unfold taskKw at h
  split at h
  · exact h
  · cases h

/-- A successful anchored Task match is a successful body match after one of
the four triggers. -/
theorem taskAt_some {s g : Str} (h : taskAt s = some g) :
    ∃ d, taskBodyAt (s.drop d) = some g := by
  unfold taskAt at h
  cases h1 : taskKw "need to".data s with
  | some g2 =>
    rw [h1] at h; simp at h; subst h
    exact ⟨_, taskKw_some h1⟩
  | none =>
    rw [h1] at h
    cases h2 : taskKw "should".data s with
    | some g2 =>
      rw [h2] at h; simp at h; subst h
      exact ⟨_, taskKw_some h2⟩
    | none =>
      rw [h2] at h
      cases h3 : taskKw "must".data s with
      | some g2 =>
        rw [h3] at h; simp at h; subst h
        exact ⟨_, taskKw_some h3⟩
      | none =>
        rw [h3] at h
        exact ⟨_, taskKw_some h⟩

/-- A successful Task search yields a group that is a non-empty infix of the
sentence ending at the terminator. -/
theorem searchTask_decomp {s g : Str} (h : searchTask s = some g) :
    ∃ e k, 1 ≤ k ∧ g = (s.drop e).take k ∧ g.length = k ∧
      dotOrEnd ((s.drop e).drop k) = true := by
  obtain ⟨d, hd⟩ := scan1_some h
  obtain ⟨d2, hd2⟩ := taskAt_some hd
  unfold taskBodyAt at hd2
  obtain ⟨j, hj⟩ := taskWsGo_some hd2
  unfold taskGroup at hj
  obtain ⟨k, hk1, hk2, hk3, hk4⟩ := taskGroupGo_some hj (by norm_num)
  have hdr : ((s.drop d).drop d2).drop j = s.drop (d + d2 + j) := by
    rw [List.drop_drop, List.drop_drop]
    congr 1
    omega
  rw [hdr] at hk2 hk4
  exact ⟨d + d2 + j, k, hk1, hk2, hk3, hk4⟩

/-- For a stripped, dot-free sentence, the Task title (the stripped group
truncated to 50 characters) is non-empty: the group must reach the
sentence's final character, which is not whitespace. -/
theorem taskTitle_ne_nil {s g : Str}
    (hlast : ∃ c w, s.reverse = c :: w ∧ isPySpace c = false)
    (hdot : '.' ∉ s) (h : searchTask s = some g) :
    (pyStrip g).take 50 ≠ [] := by
  obtain ⟨e, k, hk1, hg, hlen, hterm⟩ := searchTask_decomp h
  obtain ⟨c, w, hrev, hc⟩ := hlast
  have hsplit : g ++ (s.drop e).drop k = s.drop e := by
    rw [hg]; exact List.take_append_drop k (s.drop e)
  cases htail : (s.drop e).drop k with
  | cons a rest =>
    rw [htail] at hterm
    simp only [dotOrEnd, Bool.or_eq_true, Bool.and_eq_true, decide_eq_true_eq,
      List.isEmpty_iff] at hterm
    rcases hterm with ha | ⟨ha, hrest⟩
    · -- the terminator is a literal dot: contradiction with the dot-free sentence
      have : '.' ∈ (s.drop e).drop k := by rw [htail, ha]; exact List.mem_cons_self _ _
      exact absurd (List.drop_subset e s (List.drop_subset k (s.drop e) this)) hdot
    · -- the terminator is `$` before a final newline: the sentence would end
      -- in whitespace, contradiction with strippedness
      subst ha; subst hrest
      have hdropE : s.drop e = g ++ ['\n'] := by rw [← hsplit, htail]
      have hs : s.take e ++ (g ++ ['\n']) = s := by
        rw [← hdropE]; exact List.take_append_drop e s
      have hsr : s.reverse = '\n' :: (g.reverse ++ (s.take e).reverse) := by
        conv_lhs => rw [← hs]
        rw [List.reverse_append, List.reverse_append]
        simp
      rw [hrev] at hsr
      injection hsr with h2 _
      rw [h2] at hc
      exact absurd hc (by decide)
  | nil =>
    rw [htail, List.append_nil] at hsplit
    have hs : s.take e ++ g = s := by rw [hsplit]; exact List.take_append_drop e s
    have hgne : g ≠ [] := by
      intro h0
      rw [h0] at hlen
      simp at hlen
      omega
    obtain ⟨c0, w0, hgrev⟩ : ∃ c0 w0, g.reverse = c0 :: w0 := by
      cases hgr : g.reverse with
      | nil => exact absurd (List.reverse_eq_nil_iff.mp hgr) hgne
      | cons a b => exact ⟨a, b, rfl⟩
    have hsrev : s.reverse = c0 :: (w0 ++ (s.take e).reverse) := by
      conv_lhs => rw [← hs]
      rw [List.reverse_append, hgrev]
      rfl
    rw [hrev] at hsrev
    injection hsrev with h2 _
    have hc0 : c0 ∈ g := by
      rw [← List.mem_reverse, hgrev]
      exact List.mem_cons_self _ _
    intro h0
    rcases List.take_eq_nil_iff.mp h0 with h50 | hnil
    · omega
    · have := all_space_of_pyStrip_eq_nil hnil c0 hc0
      rw [h2] at hc
      rw [this] at hc
      cases hc

/-! ### Helper lemmas: where actions come from -/

/-- A non-empty list stays non-empty after appending. -/
theorem append_left_ne_nil {u : Str} (h : u ≠ []) (v : Str) : u ++ v ≠ [] := by
  cases u with
  | nil => exact absurd rfl h
  | cons c cs => simp

/-- Every returned action was produced by the rule cascade on a sentence
that is non-empty, dot-free, and ends in a non-whitespace character. -/
theorem mem_extract {t : Str} {a : PyAction} (h : a ∈ extract_actions t) :
    ∃ s : Str, s ≠ [] ∧ '.' ∉ s ∧
      (∃ c w, s.reverse = c :: w ∧ isPySpace c = false) ∧
      a ∈ sentenceActions s := by
  unfold extract_actions at h
  split at h
  · simp at h
  · unfold dedupActions at h
    have h1 := mem_of_mem_dedupGo h
    obtain ⟨raw, hraw, ha⟩ := mem_collectActions h1
    by_cases hs : pyStrip raw = []
    · simp only [hs] at ha
      simp at ha
    · refine ⟨pyStrip raw, hs, ?_, pyStrip_last_not_space hs, ?_⟩
      · intro hdot
        exact not_mem_pySplit '.' _ raw hraw (mem_of_mem_pyStrip hdot)
      · simpa [hs] using ha

/-- An action appended by the Task block has the Task shape. -/
theorem mem_tryTask {s l : Str} {a : PyAction} (h : a ∈ tryTask s l) :
    ∃ g, searchTask s = some g ∧ a = taskAction g s := by
  unfold tryTask at h
  split at h
  · split at h
    next g hg => exact ⟨g, hg, by simpa using h⟩
    next => simp at h
  · simp at h

/-- An action appended at or after the Meeting block has the Meeting shape
or comes from the Task block. -/
theorem mem_tryMeeting {s l : Str} {a : PyAction} (h : a ∈ tryMeeting s l) :
    (∃ n, searchMeeting s = some n ∧ a = meetingAction n s) ∨ a ∈ tryTask s l := by
  unfold tryMeeting at h
  split at h
  · split at h
    next n hn =>
      split at h
      · exact Or.inr h
      · exact Or.inl ⟨n, hn, by simpa using h⟩
    next => exact Or.inr h
  · exact Or.inr h

/-- An action appended at or after the Call block has the Call shape or
comes from a later block. -/
theorem mem_tryCall {s l : Str} {a : PyAction} (h : a ∈ tryCall s l) :
    (∃ n, searchCall s = some n ∧ a = callAction n s) ∨ a ∈ tryMeeting s l := by
  unfold tryCall at h
  split at h
  · split at h
    next n hn =>
      split at h
      · exact Or.inr h
      · exact Or.inl ⟨n, hn, by simpa using h⟩
    next => exact Or.inr h
  · exact Or.inr h

/-- An action appended by the cascade has the Email shape or comes from a
later block. -/
theorem mem_tryEmail {s l : Str} {a : PyAction} (h : a ∈ tryEmail s l) :
    (∃ e, searchEmail s = some e ∧ a = emailAction e s) ∨ a ∈ tryCall s l := by
  unfold tryEmail at h
  split at h
  · split at h
    next e he => exact Or.inl ⟨e, he, by simpa using h⟩
    next => exact Or.inr h
  · exact Or.inr h

/-! ### Helper lemmas: the cascade equals the prioritized rule chain -/

/-- The Task block appends exactly what the Task rule matches. -/
theorem tryTask_eq (s l : Str) : tryTask s l = (ruleTask s l).toList := by
  unfold tryTask ruleTask
  by_cases hg : taskGate l
  · rw [if_pos hg, if_pos hg]
    cases searchTask s <;> simp
  · rw [if_neg hg, if_neg hg]
    rfl

/-- The Meeting block appends the Meeting rule's match and otherwise defers
to the Task block. -/
theorem tryMeeting_eq (s l : Str) :
    tryMeeting s l =
      match ruleMeeting s l with
      | some a => [a]
      | none => tryTask s l := by
  unfold tryMeeting ruleMeeting
  by_cases hg : meetingGate l
  · rw [if_pos hg, if_pos hg]
    cases searchMeeting s with
    | some n =>
      by_cases hstop : pyLower n ∈ meetStop
      · simp [hstop]
      · simp [hstop]
    | none => simp
  · rw [if_neg hg, if_neg hg]

/-- The Call block appends the Call rule's match and otherwise defers to the
Meeting block. -/
theorem tryCall_eq (s l : Str) :
    tryCall s l =
      match ruleCall s l with
      | some a => [a]
      | none => tryMeeting s l := by
  unfold tryCall ruleCall
  by_cases hg : callGate l
  · rw [if_pos hg, if_pos hg]
    cases searchCall s with
    | some n =>
      by_cases hstop : pyLower n ∈ callStop
      · simp [hstop]
      · simp [hstop]
    | none => simp
  · rw [if_neg hg, if_neg hg]

/-- The Email block appends the Email rule's match and otherwise defers to
the Call block. -/
theorem tryEmail_eq (s l : Str) :
    tryEmail s l =
      match ruleEmail s l with
      | some a => [a]
      | none => tryCall s l := by
  unfold tryEmail ruleEmail
  by_cases hg : emailGate l
  · rw [if_pos hg, if_pos hg]
    cases searchEmail s <;> simp
  · rw [if_neg hg, if_neg hg]

/-! ### Helper lemmas: the dedup loop keeps first occurrences -/

/-- The dedup loop with an arbitrary `seen` set equals the first-occurrence
filter on the candidates not yet seen. -/
theorem dedupGo_eq_dedupFirstOccur :
    ∀ (l : List PyAction) (seen : List Str),
      dedupGo seen l =
        dedupFirstOccur (l.filter fun a => decide (pyLower a.title ∉ seen)) := by
  intro l
  induction l with
  | nil => intro seen; simp [dedupGo, dedupFirstOccur]
  | cons a rest ih =>
    intro seen
    simp only [dedupGo]
    by_cases h : pyLower a.title ∈ seen
    · rw [if_pos h, ih seen]
      congr 1
      simp [List.filter_cons, h]
    · rw [if_neg h, ih (pyLower a.title :: seen)]
      have hfil : (rest.filter fun b => decide (pyLower b.title ∉ pyLower a.title :: seen))
          = ((rest.filter fun b => decide (pyLower b.title ∉ seen)).filter
              fun b => pyLower b.title != pyLower a.title) := by
        rw [List.filter_filter]
        apply List.filter_congr
        intro x _
        by_cases h1 : pyLower x.title = pyLower a.title
        · simp [h1]
        · by_cases h2 : pyLower x.title ∈ seen <;> simp [h1, h2]
      have hcons : (a :: rest).filter (fun b => decide (pyLower b.title ∉ seen))
          = a :: (rest.filter fun b => decide (pyLower b.title ∉ seen)) := by
        simp [List.filter_cons, h]
      rw [hfil, hcons, dedupFirstOccur]

/-! ### The claims -/

/-- C1: the spec's Example 1 says the transcript
`"Please email john.doe@example.com about the report."` yields one Email
action titled `"Email john.doe@example.com"`.  The code disagrees: splitting
on `.` destroys the address's dots, the email regex needs a literal dot, and
the result is empty.  This theorem evaluates the code at that input. -/
theorem c1_email_example_yields_no_action :
    extract_actions "Please email john.doe@example.com about the report.".data = [] := by
  rfl

/-- C2: no input transcript ever produces an action with `action_type`
`'email'`: every sentence offered to the matchers is a dot-free segment of
the split, and the email pattern requires a literal dot. -/
theorem c2_no_email_action_ever (t : Str) (a : PyAction)
    (h : a ∈ extract_actions t) : a.action_type ≠ "email".data := by
  obtain ⟨s, hne, hdot, hlast, ha⟩ := mem_extract h
  unfold sentenceActions at ha
  rcases mem_tryEmail ha with ⟨e, he, _⟩ | h1
  · rw [searchEmail_eq_none hdot] at he
    cases he
  rcases mem_tryCall h1 with ⟨n, _, rfl⟩ | h2
  · simp only [callAction]
    decide
  rcases mem_tryMeeting h2 with ⟨n, _, rfl⟩ | h3
  · simp only [meetingAction]
    decide
  obtain ⟨g, _, rfl⟩ := mem_tryTask h3
  simp only [taskAction]
  decide

/-- C2 witness: the call action extracted from a concrete transcript indeed
has a non-email action type. -/
theorem c2_witness :
    (PyAction.mk "call".data "Call Sarah".data "Please call Sarah tomorrow".data
      [("contact".data, "Sarah".data)]).action_type ≠ "email".data :=
  c2_no_email_action_ever "Please call Sarah tomorrow.".data _ (by decide)

/-- C3 counterexample: the claim says the input sentence
`"Call with Sarah tomorrow."` produces a Call action titled `"Call Sarah"`
with contact `"Sarah"`; in fact `extract_actions` returns the empty list on
that transcript (the Call regex matches its keywords case-sensitively and
admits no intervening `with`). -/
theorem c3_counterexample :
    ¬ (extract_actions "Call with Sarah tomorrow.".data =
        [PyAction.mk "call".data "Call Sarah".data "Call with Sarah tomorrow".data
          [("contact".data, "Sarah".data)]]) := by
  decide

/-- C3 amended: the Call rule's regex matches the keyword literally
(case-sensitively, lowercase `call`/`phone`/`ring`) and allows no
intervening `with`; a sentence with a lowercase keyword directly followed by
a capitalized name, such as `"Please call Sarah tomorrow."`, produces the
Call action with title `"Call Sarah"` and contact `"Sarah"`, while
`"Call with Sarah tomorrow."` produces no action at all. -/
theorem c3_amended :
    extract_actions "Please call Sarah tomorrow.".data =
      [PyAction.mk "call".data "Call Sarah".data "Please call Sarah tomorrow".data
        [("contact".data, "Sarah".data)]] ∧
    extract_actions "Call with Sarah tomorrow.".data = [] := by
  exact ⟨by rfl, by rfl⟩

/-- C4 counterexample: the claim says a request whose body is not valid JSON
gets a 400 response; in fact `req.get_json()` raises, only the outer
`except` catches it, and the handler answers 500. -/
theorem c4_counterexample :
    (transcribe_audio (fun _ _ => Except.ok []) "Expecting value".data none).status = 500 ∧
    (transcribe_audio (fun _ _ => Except.ok []) "Expecting value".data none).status ≠ 400 := by
  exact ⟨rfl, by decide⟩

/-- C4 amended: a request whose body parses as JSON but lacks a truthy
`recording_id` or `audio_url` gets 400 with an `error` body; a request whose
body is not valid JSON raises inside the handler and gets 500 with an
`error` body. -/
theorem c4_amended (process : Str → Str → Except Str Str) (parseErr : Str)
    (rid url : Option Str) :
    ((pyFalsy rid || pyFalsy url) = true →
      transcribe_audio process parseErr (some (rid, url)) =
        ⟨400, RespBody.err "Missing recording_id or audio_url".data⟩) ∧
    transcribe_audio process parseErr none = ⟨500, RespBody.err parseErr⟩ := by
  constructor
  · intro h
    simp only [transcribe_audio]
    rw [if_pos h]
  · rfl

/-- C4 witness: a body missing both fields gets the 400 response. -/
theorem c4_witness :
    transcribe_audio (fun _ _ => Except.ok []) "x".data (some (none, none)) =
      ⟨400, RespBody.err "Missing recording_id or audio_url".data⟩ :=
  (c4_amended (fun _ _ => Except.ok []) "x".data none none).1 (by decide)

/-- C5: the cascade evaluates the rules in the fixed order Email, Call,
Meeting, Task with the first successful match winning (a rule whose gate
fires but whose extraction fails just defers to the next rule), so every
sentence contributes at most one action. -/
theorem c5_first_match_wins (s : Str) :
    sentenceActions s = (ruleFirst s).toList ∧ (sentenceActions s).length ≤ 1 := by
  have h : sentenceActions s = (ruleFirst s).toList := by
    unfold sentenceActions ruleFirst
    rw [tryEmail_eq]
    cases ruleEmail s (pyLower s) with
    | some a => simp
    | none =>
      rw [tryCall_eq]
      cases ruleCall s (pyLower s) with
      | some a => simp
      | none =>
        rw [tryMeeting_eq]
        cases ruleMeeting s (pyLower s) with
        | some a => simp
        | none => exact tryTask_eq s (pyLower s)
  refine ⟨h, ?_⟩
  rw [h]
  cases ruleFirst s <;> simp

/-- C6: the deduplication loop returns, for each lowercased title, exactly
the first candidate bearing it, preserving first-occurrence order (stated as
equality with the first-occurrence filter `dedupFirstOccur`). -/
theorem c6_dedup_first_occurrence (l : List PyAction) :
    dedupActions l = dedupFirstOccur l := by
  unfold dedupActions
  rw [dedupGo_eq_dedupFirstOccur]
  congr 1
  simp

/-- C7: every returned action has a non-empty title, one of the four action
types, and the metadata keys fixed for its variant (`recipient` for email,
`contact` for call and meeting, empty for task). -/
theorem c7_action_invariants (t : Str) (a : PyAction) (h : a ∈ extract_actions t) :
    a.title ≠ [] ∧
    ((a.action_type = "email".data ∧ ∃ e, a.metadata = [("recipient".data, e)]) ∨
     (a.action_type = "call".data ∧ ∃ n, a.metadata = [("contact".data, n)]) ∨
     (a.action_type = "meeting".data ∧ ∃ n, a.metadata = [("contact".data, n)]) ∨
     (a.action_type = "task".data ∧ a.metadata = [])) := by
  obtain ⟨s, hne, hdot, hlast, ha⟩ := mem_extract h
  unfold sentenceActions at ha
  rcases mem_tryEmail ha with ⟨e, he, rfl⟩ | h1
  · exact ⟨append_left_ne_nil (by decide) e, Or.inl ⟨rfl, e, rfl⟩⟩
  rcases mem_tryCall h1 with ⟨n, hn, rfl⟩ | h2
  · exact ⟨append_left_ne_nil (by decide) n, Or.inr (Or.inl ⟨rfl, n, rfl⟩)⟩
  rcases mem_tryMeeting h2 with ⟨n, hn, rfl⟩ | h3
  · exact ⟨append_left_ne_nil (by decide) n, Or.inr (Or.inr (Or.inl ⟨rfl, n, rfl⟩))⟩
  obtain ⟨g, hg, rfl⟩ := mem_tryTask h3
  exact ⟨taskTitle_ne_nil hlast hdot hg, Or.inr (Or.inr (Or.inr ⟨rfl, rfl⟩))⟩

/-- C7 witness: the invariants hold for the concrete call action extracted
from `"Please call Sarah tomorrow."`. -/
theorem c7_witness :
    (PyAction.mk "call".data "Call Sarah".data "Please call Sarah tomorrow".data
      [("contact".data, "Sarah".data)]).title ≠ [] ∧
    (((PyAction.mk "call".data "Call Sarah".data "Please call Sarah tomorrow".data
        [("contact".data, "Sarah".data)]).action_type = "email".data ∧
      ∃ e, (PyAction.mk "call".data "Call Sarah".data "Please call Sarah tomorrow".data
        [("contact".data, "Sarah".data)]).metadata = [("recipient".data, e)]) ∨
     ((PyAction.mk "call".data "Call Sarah".data "Please call Sarah tomorrow".data
        [("contact".data, "Sarah".data)]).action_type = "call".data ∧
      ∃ n, (PyAction.mk "call".data "Call Sarah".data "Please call Sarah tomorrow".data
        [("contact".data, "Sarah".data)]).metadata = [("contact".data, n)]) ∨
     ((PyAction.mk "call".data "Call Sarah".data "Please call Sarah tomorrow".data
        [("contact".data, "Sarah".data)]).action_type = "meeting".data ∧
      ∃ n, (PyAction.mk "call".data "Call Sarah".data "Please call Sarah tomorrow".data
        [("contact".data, "Sarah".data)]).metadata = [("contact".data, n)]) ∨
     ((PyAction.mk "call".data "Call Sarah".data "Please call Sarah tomorrow".data
        [("contact".data, "Sarah".data)]).action_type = "task".data ∧
      (PyAction.mk "call".data "Call Sarah".data "Please call Sarah tomorrow".data
        [("contact".data, "Sarah".data)]).metadata = [])) :=
  c7_action_invariants "Please call Sarah tomorrow.".data _ (by decide)

/-- C8: an empty or whitespace-only transcript yields the empty action
list. -/
theorem c8_whitespace_empty (t : Str) (h : ∀ c ∈ t, isPySpace c = true) :
    extract_actions t = [] := by
  unfold extract_actions
  split
  · rfl
  · have hrep : ∀ c ∈ pyReplace '?' '.' (pyReplace '!' '.' t), isPySpace c = true := by
      intro c hc
      simp only [pyReplace, List.mem_map] at hc
      obtain ⟨c1, hc1, rfl⟩ := hc
      obtain ⟨c0, hc0, rfl⟩ := hc1
      have h0 := h c0 hc0
      have hb : c0 ≠ '!' := by
        intro he
        rw [he] at h0
        exact absurd h0 (by decide)
      have hq : c0 ≠ '?' := by
        intro he
        rw [he] at h0
        exact absurd h0 (by decide)
      rw [if_neg hb, if_neg hq]
      exact h0
    have hall : ∀ raw ∈ pySplit '.' (pyReplace '?' '.' (pyReplace '!' '.' t)),
        (fun raw =>
          let s := pyStrip raw
          if s = [] then [] else sentenceActions s) raw = ([] : List PyAction) := by
      intro raw hraw
      have hsp : pyStrip raw = [] := by
        apply pyStrip_eq_nil_of_all_space
        intro c hc
        exact hrep c (subset_of_mem_pySplit '.' _ raw hraw c hc)
      simp [hsp]
    rw [collectActions_eq_nil hall]
    rfl

/-- C8 witness: a three-space transcript yields the empty list. -/
theorem c8_witness : extract_actions "   ".data = [] :=
  c8_whitespace_empty "   ".data (by decide)

/-- C9: `extract_actions` is a total function of the transcript: it returns
a value on every input (the embedding is a total computable definition, with
no failure mode). -/
theorem c9_total (t : Str) : ∃ acts : List PyAction, extract_actions t = acts :=
  ⟨extract_actions t, rfl⟩

/-- C10: `"Call the doctor tomorrow."` yields no action at all, and in
general a Call-rule name whose lowercase form is stoplisted makes the Call
block decline and hand the sentence to the Meeting block. -/
theorem c10_stoplist :
    extract_actions "Call the doctor tomorrow.".data = [] ∧
    ∀ s l n : Str, searchCall s = some n → pyLower n ∈ callStop →
      tryCall s l = tryMeeting s l := by
  refine ⟨by rfl, ?_⟩
  intro s l n hn hstop
  unfold tryCall
  split
  · rw [hn]
    simp [hstop]
  · rfl

/-- C10 witness: the stoplisted name `"Back"` extracted from
`"please call Back later"` makes the Call block defer to the Meeting
block. -/
theorem c10_witness :
    tryCall "please call Back later".data (pyLower "please call Back later".data) =
      tryMeeting "please call Back later".data (pyLower "please call Back later".data) :=
  c10_stoplist.2 _ _ "Back".data (by decide) (by decide)

